import Mathlib

/-!
Verification of the attack-timing trainer's playback core.

The development shallowly embeds the two timing-relevant pieces of the
repository:

* `SimonSimulator.handleKeyPress` — the press-matching algorithm (loop over
  the event list tracking the best in-tolerance candidate and the nearest
  unmatched event for miss feedback, appending one `Press` record).
* `usePlayback` — the playback hook: `start`, `stop`, `reset`, and the
  per-animation-frame `tick` that recomputes elapsed time, fires one-shot
  audio cues, and auto-stops two seconds after the last event.

Times are embedded as rationals (the code's IEEE doubles read as exact
reals), wall-clock times are in milliseconds as returned by
`performance.now()`, and the event/press records keep the source's field
names.
-/

namespace AttackTimer

/-- `Event = { id: number; time: number }` from `types.ts`; `time` is in
seconds from run start. -/
structure Event where
  id : Nat
  time : ℚ
deriving DecidableEq, Repr

/-- `Press = { eventId: number | null; time: number; delta: number;
matched: boolean }` from `types.ts`. -/
structure Press where
  eventId : Option Nat
  time : ℚ
  delta : ℚ
  matched : Bool
deriving DecidableEq, Repr

/-- `presses.some(p => p.eventId === eventItem.id && p.matched)` — whether
some recorded press already matched the event with this id. -/
def isMatchedIn (presses : List Press) (id : Nat) : Bool :=
  presses.any fun p => p.eventId == some id && p.matched

/-- `const delta = (pressTime - eventItem.time) * 1000` — signed error in
milliseconds of a press at `pressTime` against event `e`. -/
def deltaMs (pressTime : ℚ) (e : Event) : ℚ :=
  (pressTime - e.time) * 1000

/-- The two accumulators of the matching loop in
`SimonSimulator.handleKeyPress`: `bestMatch` (best in-tolerance unmatched
candidate so far) and `nearestEvent` (nearest unmatched event so far,
tolerance ignored). -/
structure ScanState where
  bestMatch : Option (Event × ℚ)
  nearestEvent : Option (Event × ℚ)
deriving DecidableEq, Repr

/-- `if (!bestMatch || Math.abs(delta) < Math.abs(bestMatch.delta))`
guarded by `Math.abs(delta) <= options.toleranceMs`. -/
def updateBest (toleranceMs d : ℚ) (e : Event) (b : Option (Event × ℚ)) :
    Option (Event × ℚ) :=
  if |d| ≤ toleranceMs then
    match b with
    | none => some (e, d)
    | some pr => if |d| < |pr.2| then some (e, d) else some pr
  else b

/-- `if (!nearestEvent || Math.abs(delta) < Math.abs(nearestEvent.delta))`. -/
def updateNearest (d : ℚ) (e : Event) (n : Option (Event × ℚ)) :
    Option (Event × ℚ) :=
  match n with
  | none => some (e, d)
  | some pr => if |d| < |pr.2| then some (e, d) else some pr

/-- One iteration of the `for (const eventItem of events)` loop: skip
events already matched by a recorded press, otherwise update both
accumulators with this event's delta. -/
def scanStep (toleranceMs pressTime : ℚ) (presses : List Press)
    (st : ScanState) (e : Event) : ScanState :=
  if isMatchedIn presses e.id then st
  else
    ⟨updateBest toleranceMs (deltaMs pressTime e) e st.bestMatch,
     updateNearest (deltaMs pressTime e) e st.nearestEvent⟩

/-- The whole loop, started from `bestMatch = null, nearestEvent = null`. -/
def scanEvents (toleranceMs pressTime : ℚ) (presses : List Press)
    (events : List Event) : ScanState :=
  events.foldl (scanStep toleranceMs pressTime presses) ⟨none, none⟩

/-- `const newPress: Press = { eventId: bestMatch?.event.id ??
nearestEvent?.event.id ?? null, time: pressTime, delta: bestMatch?.delta ??
nearestEvent?.delta ?? 0, matched: bestMatch !== null }`. -/
def mkPress (pressTime : ℚ) (st : ScanState) : Press :=
  { eventId :=
      match st.bestMatch with
      | some pr => some pr.1.id
      | none =>
        match st.nearestEvent with
        | some pr => some pr.1.id
        | none => none
    time := pressTime
    delta :=
      match st.bestMatch with
      | some pr => pr.2
      | none =>
        match st.nearestEvent with
        | some pr => pr.2
        | none => 0
    matched := st.bestMatch.isSome }

/-- `SimonSimulator.handleKeyPress`: gated on `isPlaying`; when playing it
scans the event list and appends exactly one new `Press` record
(`setPresses(prev => [...prev, newPress])`); otherwise the press log is
untouched. -/
def handleKeyPress (events : List Event) (presses : List Press)
    (toleranceMs : ℚ) (isPlaying : Bool) (pressTime : ℚ) : List Press :=
  if isPlaying then
    presses ++ [mkPress pressTime (scanEvents toleranceMs pressTime presses events)]
  else presses

/-- The playback hook's state: React state `{ isPlaying, now }` plus the
refs `startTimeRef` (wall ms) and `playedEventsRef` (ids whose cue already
fired). -/
structure PlaybackState where
  isPlaying : Bool
  now : ℚ
  startTime : ℚ
  played : List Nat
deriving DecidableEq, Repr

/-- `useState<PlaybackState>({ isPlaying: false, now: 0 })` with fresh refs. -/
def initialState : PlaybackState :=
  ⟨false, 0, 0, []⟩

/-- `usePlayback.start`: records `startTimeRef.current = performance.now()`,
clears `playedEventsRef`, sets `isPlaying = true`.  `wallNow` is the
current `performance.now()` in milliseconds. -/
def start (wallNow : ℚ) (s : PlaybackState) : PlaybackState :=
  { s with startTime := wallNow, played := [], isPlaying := true }

/-- `usePlayback.stop`: `setState(prev => ({ ...prev, isPlaying: false }))`. -/
def stop (s : PlaybackState) : PlaybackState :=
  { s with isPlaying := false }

/-- `usePlayback.reset`: `stop()`, clear `playedEventsRef`, and
`setState({ isPlaying: false, now: 0 })`. -/
def reset (s : PlaybackState) : PlaybackState :=
  { stop s with now := 0, played := [] }

/-- `events.length > 0 ? Math.max(...events.map(e => e.time)) : 0`. -/
def lastEventTime (events : List Event) : ℚ :=
  match events with
  | [] => 0
  | e :: es => es.foldl (fun m x => max m x.time) e.time

/-- The `events.forEach` cue loop of `usePlayback.tick`, threading the
fired-id set and collecting the ids whose cue fires on this tick. -/
def fcGo (adjusted : ℚ) : List Event → List Nat × List Nat → List Nat × List Nat
  | [], acc => acc
  | e :: es, acc =>
    fcGo adjusted es
      (if e.time ≤ adjusted ∧ e.id ∉ acc.1 then (e.id :: acc.1, acc.2 ++ [e.id]) else acc)

/-- Fire every due, not-yet-fired cue: returns the new fired-id set and the
ids fired on this tick. -/
def fireCues (adjusted : ℚ) (events : List Event) (played : List Nat) :
    List Nat × List Nat :=
  fcGo adjusted events (played, [])

/-- The adjusted elapsed time computed at the top of `usePlayback.tick`:
`elapsed = (performance.now() - startTimeRef.current) / 1000` followed by
`adjustedTime = elapsed - options.preRollSeconds`. -/
def adjustedAt (preRollSeconds wallNow : ℚ) (s : PlaybackState) : ℚ :=
  (wallNow - s.startTime) / 1000 - preRollSeconds

/-- Result of one invocation of `usePlayback.tick`: the new state, the cue
ids fired during the invocation, and whether `requestAnimationFrame(tick)`
was called again (the cadence continues). -/
structure TickOut where
  state : PlaybackState
  cues : List Nat
  scheduled : Bool
deriving DecidableEq, Repr

/-- `usePlayback.tick` at wall time `wallNow` (ms): bail out if not
playing; otherwise recompute `elapsed = (performance.now() - startTime) /
1000` and `adjustedTime = elapsed - preRollSeconds`, store it in `now`,
fire due cues, and auto-stop (without rescheduling) once `adjustedTime ≥
lastEventTime + 2`. -/
def tick (events : List Event) (preRollSeconds wallNow : ℚ)
    (s : PlaybackState) : TickOut :=
  if s.isPlaying = false then ⟨s, [], false⟩
  else
    let adjustedTime := adjustedAt preRollSeconds wallNow s
    let fc := fireCues adjustedTime events s.played
    let s1 : PlaybackState := { s with now := adjustedTime, played := fc.1 }
    if lastEventTime events + 2 ≤ adjustedTime then
      ⟨{ s1 with isPlaying := false }, fc.2, false⟩
    else
      ⟨s1, fc.2, true⟩

/-- A run of the animation-frame loop: one `tick` per wall timestamp,
collecting each tick's fired cue ids. -/
def runTicks (events : List Event) (preRollSeconds : ℚ) :
    List ℚ → PlaybackState → PlaybackState × List (List Nat)
  | [], s => (s, [])
  | w :: ws, s =>
    let o := tick events preRollSeconds w s
    let r := runTicks events preRollSeconds ws o.state
    (r.1, o.cues :: r.2)

/-- A run of presses while playing, processed in arrival order against the
growing press log (the log starts empty at `handlePlay`). -/
def runPresses (events : List Event) (toleranceMs : ℚ) (ts : List ℚ) :
    List Press :=
  ts.foldl (fun ps t => handleKeyPress events ps toleranceMs true t) []

/-- How many presses in the log claim event `id` as a match. -/
def countMatched (presses : List Press) (id : Nat) : Nat :=
  presses.countP fun p => p.eventId == some id && p.matched

/-- The `bestMatch` component of one loop iteration, taken in isolation. -/
def bestFold (toleranceMs t : ℚ) (ps : List Press)
    (b : Option (Event × ℚ)) (e : Event) : Option (Event × ℚ) :=
  if isMatchedIn ps e.id then b else updateBest toleranceMs (deltaMs t e) e b

/-- The `nearestEvent` component of one loop iteration, taken in isolation. -/
def nearFold (t : ℚ) (ps : List Press)
    (n : Option (Event × ℚ)) (e : Event) : Option (Event × ℚ) :=
  if isMatchedIn ps e.id then n else updateNearest (deltaMs t e) e n

/-- Specification of the `bestMatch` accumulator after scanning the events
of `p`: empty exactly when no unmatched event of `p` lies within tolerance,
and otherwise an unmatched in-tolerance event of `p` with minimal
`|delta|`. -/
def BestCore (tol t : ℚ) (ps : List Press) (p : List Event)
    (b : Option (Event × ℚ)) : Prop :=
  (b = none → ∀ e ∈ p, isMatchedIn ps e.id = false → ¬ |deltaMs t e| ≤ tol) ∧
  (∀ e₀ d₀, b = some (e₀, d₀) →
    d₀ = deltaMs t e₀ ∧ isMatchedIn ps e₀.id = false ∧ |d₀| ≤ tol ∧ e₀ ∈ p ∧
    ∀ e ∈ p, isMatchedIn ps e.id = false → |deltaMs t e| ≤ tol →
      |d₀| ≤ |deltaMs t e|)

/-- Tie-break specification of `bestMatch`: among equal `|delta|` the held
candidate has the earliest event time. -/
def BestTie (tol t : ℚ) (ps : List Press) (p : List Event)
    (b : Option (Event × ℚ)) : Prop :=
  ∀ e₀ d₀, b = some (e₀, d₀) →
    ∀ e ∈ p, isMatchedIn ps e.id = false → |deltaMs t e| ≤ tol →
      |deltaMs t e| = |d₀| → e₀.time ≤ e.time

/-- Specification of the `nearestEvent` accumulator after scanning `p`:
empty exactly when every event of `p` is already matched, and otherwise an
unmatched event of `p` with minimal `|delta|` (no tolerance filter). -/
def NearCore (t : ℚ) (ps : List Press) (p : List Event)
    (n : Option (Event × ℚ)) : Prop :=
  (n = none → ∀ e ∈ p, isMatchedIn ps e.id = false → False) ∧
  (∀ e₀ d₀, n = some (e₀, d₀) →
    d₀ = deltaMs t e₀ ∧ isMatchedIn ps e₀.id = false ∧ e₀ ∈ p ∧
    ∀ e ∈ p, isMatchedIn ps e.id = false → |d₀| ≤ |deltaMs t e|)

lemma scanStep_bestMatch (tol t : ℚ) (ps : List Press) (st : ScanState)
    (e : Event) :
    (scanStep tol t ps st e).bestMatch = bestFold tol t ps st.bestMatch e := by
  unfold scanStep bestFold
  split <;> rfl

lemma scanStep_nearestEvent (tol t : ℚ) (ps : List Press) (st : ScanState)
    (e : Event) :
    (scanStep tol t ps st e).nearestEvent = nearFold t ps st.nearestEvent e := by
  unfold scanStep nearFold
  split <;> rfl

lemma foldl_scan_best (tol t : ℚ) (ps : List Press) :
    ∀ (l : List Event) (st : ScanState),
    (l.foldl (scanStep tol t ps) st).bestMatch
      = l.foldl (bestFold tol t ps) st.bestMatch := by
  intro l
  induction l with
  | nil => intro st; rfl
  | cons e es ih =>
    intro st
    have h := ih (scanStep tol t ps st e)
    simpa [List.foldl_cons, scanStep_bestMatch] using h

lemma foldl_scan_near (tol t : ℚ) (ps : List Press) :
    ∀ (l : List Event) (st : ScanState),
    (l.foldl (scanStep tol t ps) st).nearestEvent
      = l.foldl (nearFold t ps) st.nearestEvent := by
  intro l
  induction l with
  | nil => intro st; rfl
  | cons e es ih =>
    intro st
    have h := ih (scanStep tol t ps st e)
    simpa [List.foldl_cons, scanStep_nearestEvent] using h

lemma bestCore_step (tol t : ℚ) (ps : List Press) (p : List Event)
    (b : Option (Event × ℚ)) (e : Event)
    (h : BestCore tol t ps p b) :
    BestCore tol t ps (p ++ [e]) (bestFold tol t ps b e) := by
  obtain ⟨hnone, hsome⟩ := h
  by_cases hm : isMatchedIn ps e.id = true
  · rw [bestFold, if_pos hm]
    constructor
    · intro hb e' he' hc'
      rcases List.mem_append.mp he' with h' | h'
      · exact hnone hb e' h' hc'
      · rw [List.mem_singleton.mp h'] at hc'
        simp [hc'] at hm
    · intro e₀ d₀ hb
      obtain ⟨h1, h2, h3, h4, h5⟩ := hsome e₀ d₀ hb
      refine ⟨h1, h2, h3, List.mem_append_left _ h4, ?_⟩
      intro e' he' hc' ht'
      rcases List.mem_append.mp he' with h' | h'
      · exact h5 e' h' hc' ht'
      · rw [List.mem_singleton.mp h'] at hc'
        simp [hc'] at hm
  · have hm' : isMatchedIn ps e.id = false := by
      cases hq : isMatchedIn ps e.id
      · rfl
      · exact absurd hq hm
    rw [bestFold, if_neg hm]
    by_cases htol : |deltaMs t e| ≤ tol
    · cases hb : b with
      | none =>
        rw [show updateBest tol (deltaMs t e) e none = some (e, deltaMs t e) from by
          simp [updateBest, htol]]
        constructor
        · intro hcontra
          exact Option.noConfusion hcontra
        · simp only [Option.some.injEq, Prod.mk.injEq]
          rintro e₀ d₀ ⟨rfl, rfl⟩
          refine ⟨rfl, hm', htol, List.mem_append_right _ (List.mem_singleton_self e), ?_⟩
          intro e' he' hc' ht'
          rcases List.mem_append.mp he' with h' | h'
          · exact absurd ht' (hnone hb e' h' hc')
          · rw [List.mem_singleton.mp h']
      | some pr =>
        obtain ⟨h1, h2, h3, h4, h5⟩ := hsome pr.1 pr.2 (by rw [hb])
        by_cases hlt : |deltaMs t e| < |pr.2|
        · rw [show updateBest tol (deltaMs t e) e (some pr) = some (e, deltaMs t e) from by
            simp [updateBest, htol, hlt]]
          constructor
          · intro hcontra
            exact Option.noConfusion hcontra
          · simp only [Option.some.injEq, Prod.mk.injEq]
            rintro e₀ d₀ ⟨rfl, rfl⟩
            refine ⟨rfl, hm', htol,
              List.mem_append_right _ (List.mem_singleton_self e), ?_⟩
            intro e' he' hc' ht'
            rcases List.mem_append.mp he' with h' | h'
            · exact le_of_lt (lt_of_lt_of_le hlt (h5 e' h' hc' ht'))
            · rw [List.mem_singleton.mp h']
        · rw [show updateBest tol (deltaMs t e) e (some pr) = some pr from by
            simp [updateBest, htol, hlt]]
          constructor
          · intro hcontra
            exact Option.noConfusion hcontra
          · intro e₀ d₀ h'
            obtain rfl : pr = (e₀, d₀) := Option.some.inj h'
            refine ⟨h1, h2, h3, List.mem_append_left _ h4, ?_⟩
            intro e' he' hc' ht'
            rcases List.mem_append.mp he' with h'' | h''
            · exact h5 e' h'' hc' ht'
            · rw [List.mem_singleton.mp h'']
              exact le_of_not_lt hlt
    · rw [show updateBest tol (deltaMs t e) e b = b from by simp [updateBest, htol]]
      constructor
      · intro hb e' he' hc'
        rcases List.mem_append.mp he' with h' | h'
        · exact hnone hb e' h' hc'
        · rw [List.mem_singleton.mp h']
          exact htol
      · intro e₀ d₀ hb
        obtain ⟨h1, h2, h3, h4, h5⟩ := hsome e₀ d₀ hb
        refine ⟨h1, h2, h3, List.mem_append_left _ h4, ?_⟩
        intro e' he' hc' ht'
        rcases List.mem_append.mp he' with h' | h'
        · exact h5 e' h' hc' ht'
        · rw [List.mem_singleton.mp h'] at ht'
          exact absurd ht' htol

lemma nearCore_step (t : ℚ) (ps : List Press) (p : List Event)
    (n : Option (Event × ℚ)) (e : Event)
    (h : NearCore t ps p n) :
    NearCore t ps (p ++ [e]) (nearFold t ps n e) := by
  obtain ⟨hnone, hsome⟩ := h
  by_cases hm : isMatchedIn ps e.id = true
  · rw [nearFold, if_pos hm]
    constructor
    · intro hb e' he' hc'
      rcases List.mem_append.mp he' with h' | h'
      · exact hnone hb e' h' hc'
      · rw [List.mem_singleton.mp h'] at hc'
        simp [hc'] at hm
    · intro e₀ d₀ hb
      obtain ⟨h1, h2, h3, h4⟩ := hsome e₀ d₀ hb
      refine ⟨h1, h2, List.mem_append_left _ h3, ?_⟩
      intro e' he' hc'
      rcases List.mem_append.mp he' with h' | h'
      · exact h4 e' h' hc'
      · rw [List.mem_singleton.mp h'] at hc'
        simp [hc'] at hm
  · have hm' : isMatchedIn ps e.id = false := by
      cases hq : isMatchedIn ps e.id
      · rfl
      · exact absurd hq hm
    rw [nearFold, if_neg hm]
    cases hb : n with
    | none =>
      rw [show updateNearest (deltaMs t e) e none = some (e, deltaMs t e) from by
        simp [updateNearest]]
      constructor
      · intro hcontra
        exact Option.noConfusion hcontra
      · simp only [Option.some.injEq, Prod.mk.injEq]
        rintro e₀ d₀ ⟨rfl, rfl⟩
        refine ⟨rfl, hm', List.mem_append_right _ (List.mem_singleton_self e), ?_⟩
        intro e' he' hc'
        rcases List.mem_append.mp he' with h' | h'
        · exact absurd hc' (by simpa using hnone hb e' h')
        · rw [List.mem_singleton.mp h']
    | some pr =>
      obtain ⟨h1, h2, h3, h4⟩ := hsome pr.1 pr.2 (by rw [hb])
      by_cases hlt : |deltaMs t e| < |pr.2|
      · rw [show updateNearest (deltaMs t e) e (some pr) = some (e, deltaMs t e) from by
          simp [updateNearest, hlt]]
        constructor
        · intro hcontra
          exact Option.noConfusion hcontra
        · simp only [Option.some.injEq, Prod.mk.injEq]
          rintro e₀ d₀ ⟨rfl, rfl⟩
          refine ⟨rfl, hm', List.mem_append_right _ (List.mem_singleton_self e), ?_⟩
          intro e' he' hc'
          rcases List.mem_append.mp he' with h' | h'
          · exact le_of_lt (lt_of_lt_of_le hlt (h4 e' h' hc'))
          · rw [List.mem_singleton.mp h']
      · rw [show updateNearest (deltaMs t e) e (some pr) = some pr from by
          simp [updateNearest, hlt]]
        constructor
        · intro hcontra
          exact Option.noConfusion hcontra
        · intro e₀ d₀ h'
          obtain rfl : pr = (e₀, d₀) := Option.some.inj h'
          refine ⟨h1, h2, List.mem_append_left _ h3, ?_⟩
          intro e' he' hc'
          rcases List.mem_append.mp he' with h'' | h''
          · exact h4 e' h'' hc'
          · rw [List.mem_singleton.mp h'']
            exact le_of_not_lt hlt

lemma bestTie_step (tol t : ℚ) (ps : List Press) (p : List Event)
    (b : Option (Event × ℚ)) (e : Event)
    (hord : ∀ x ∈ p, x.time ≤ e.time)
    (hcore : BestCore tol t ps p b)
    (htie : BestTie tol t ps p b) :
    BestTie tol t ps (p ++ [e]) (bestFold tol t ps b e) := by
  obtain ⟨hnone, hsome⟩ := hcore
  by_cases hm : isMatchedIn ps e.id = true
  · rw [bestFold, if_pos hm]
    intro e₀ d₀ hb e' he' hc' ht' heq
    rcases List.mem_append.mp he' with h' | h'
    · exact htie e₀ d₀ hb e' h' hc' ht' heq
    · rw [List.mem_singleton.mp h'] at hc'
      simp [hc'] at hm
  · have hm' : isMatchedIn ps e.id = false := by
      cases hq : isMatchedIn ps e.id
      · rfl
      · exact absurd hq hm
    rw [bestFold, if_neg hm]
    by_cases htol : |deltaMs t e| ≤ tol
    · cases hb : b with
      | none =>
        rw [show updateBest tol (deltaMs t e) e none = some (e, deltaMs t e) from by
          simp [updateBest, htol]]
        intro e₀ d₀ hb'
        rw [Option.some.injEq, Prod.mk.injEq] at hb'
        obtain ⟨rfl, rfl⟩ := hb'
        intro e' he' hc' ht' _
        rcases List.mem_append.mp he' with h' | h'
        · exact absurd ht' (hnone hb e' h' hc')
        · rw [List.mem_singleton.mp h']
      | some pr =>
        obtain ⟨h1, h2, h3, h4, h5⟩ := hsome pr.1 pr.2 (by rw [hb])
        by_cases hlt : |deltaMs t e| < |pr.2|
        · rw [show updateBest tol (deltaMs t e) e (some pr) = some (e, deltaMs t e) from by
            simp [updateBest, htol, hlt]]
          intro e₀ d₀ hb'
          rw [Option.some.injEq, Prod.mk.injEq] at hb'
          obtain ⟨rfl, rfl⟩ := hb'
          intro e' he' hc' ht' heq
          rcases List.mem_append.mp he' with h' | h'
          · have : |pr.2| ≤ |deltaMs t e'| := h5 e' h' hc' ht'
            rw [heq] at this
            exact absurd hlt (not_lt_of_le this)
          · rw [List.mem_singleton.mp h']
        · rw [show updateBest tol (deltaMs t e) e (some pr) = some pr from by
            simp [updateBest, htol, hlt]]
          intro e₀ d₀ h' e' he' hc' ht' heq
          obtain rfl : pr = (e₀, d₀) := Option.some.inj h'
          rcases List.mem_append.mp he' with h'' | h''
          · exact htie e₀ d₀ hb e' h'' hc' ht' heq
          · rw [List.mem_singleton.mp h'']
            exact hord e₀ h4
    · rw [show updateBest tol (deltaMs t e) e b = b from by simp [updateBest, htol]]
      intro e₀ d₀ hb e' he' hc' ht' heq
      rcases List.mem_append.mp he' with h' | h'
      · exact htie e₀ d₀ hb e' h' hc' ht' heq
      · rw [List.mem_singleton.mp h'] at ht'
        exact absurd ht' htol

lemma bestCore_fold (tol t : ℚ) (ps : List Press) :
    ∀ (l p : List Event) (b : Option (Event × ℚ)),
    BestCore tol t ps p b →
    BestCore tol t ps (p ++ l) (l.foldl (bestFold tol t ps) b) := by
  intro l
  induction l with
  | nil =>
    intro p b h
    simpa using h
  | cons e es ih =>
    intro p b h
    have h1 := bestCore_step tol t ps p b e h
    have h2 := ih (p ++ [e]) _ h1
    simpa [List.append_assoc] using h2

lemma nearCore_fold (t : ℚ) (ps : List Press) :
    ∀ (l p : List Event) (n : Option (Event × ℚ)),
    NearCore t ps p n →
    NearCore t ps (p ++ l) (l.foldl (nearFold t ps) n) := by
  intro l
  induction l with
  | nil =>
    intro p n h
    simpa using h
  | cons e es ih =>
    intro p n h
    have h1 := nearCore_step t ps p n e h
    have h2 := ih (p ++ [e]) _ h1
    simpa [List.append_assoc] using h2

lemma bestTie_fold (tol t : ℚ) (ps : List Press) :
    ∀ (l p : List Event) (b : Option (Event × ℚ)),
    (p ++ l).Pairwise (fun a b => a.time ≤ b.time) →
    BestCore tol t ps p b → BestTie tol t ps p b →
    BestTie tol t ps (p ++ l) (l.foldl (bestFold tol t ps) b) := by
  intro l
  induction l with
  | nil =>
    intro p b _ _ htie
    simpa using htie
  | cons e es ih =>
    intro p b hsort hcore htie
    have hord : ∀ x ∈ p, x.time ≤ e.time := by
      intro x hx
      have := (List.pairwise_append.mp hsort).2.2 x hx e (List.mem_cons_self e es)
      exact this
    have h1 := bestTie_step tol t ps p b e hord hcore htie
    have h1c := bestCore_step tol t ps p b e hcore
    have hsort' : ((p ++ [e]) ++ es).Pairwise (fun a b => a.time ≤ b.time) := by
      simpa [List.append_assoc] using hsort
    have h2 := ih (p ++ [e]) _ hsort' h1c h1
    simpa [List.append_assoc] using h2

lemma scanEvents_bestCore (tol t : ℚ) (ps : List Press) (events : List Event) :
    BestCore tol t ps events (scanEvents tol t ps events).bestMatch := by
  have hinit : BestCore tol t ps [] (none : Option (Event × ℚ)) := by
    constructor
    · intro _ e he
      exact absurd he (List.not_mem_nil e)
    · intro e₀ d₀ h
      exact Option.noConfusion h
  have h := bestCore_fold tol t ps events [] none hinit
  rw [scanEvents, foldl_scan_best]
  simpa using h

lemma scanEvents_nearCore (t : ℚ) (tol : ℚ) (ps : List Press) (events : List Event) :
    NearCore t ps events (scanEvents tol t ps events).nearestEvent := by
  have hinit : NearCore t ps [] (none : Option (Event × ℚ)) := by
    constructor
    · intro _ e he
      exact absurd he (List.not_mem_nil e)
    · intro e₀ d₀ h
      exact Option.noConfusion h
  have h := nearCore_fold t ps events [] none hinit
  rw [scanEvents, foldl_scan_near]
  simpa using h

lemma scanEvents_bestTie (tol t : ℚ) (ps : List Press) (events : List Event)
    (hsort : events.Pairwise (fun a b => a.time ≤ b.time)) :
    BestTie tol t ps events (scanEvents tol t ps events).bestMatch := by
  have hinit : BestCore tol t ps [] (none : Option (Event × ℚ)) := by
    constructor
    · intro _ e he
      exact absurd he (List.not_mem_nil e)
    · intro e₀ d₀ h
      exact Option.noConfusion h
  have hinitT : BestTie tol t ps [] (none : Option (Event × ℚ)) := by
    intro e₀ d₀ h
    exact Option.noConfusion h
  have h := bestTie_fold tol t ps events [] none (by simpa using hsort) hinit hinitT
  rw [scanEvents, foldl_scan_best]
  simpa using h

lemma mkPress_best (t : ℚ) (st : ScanState) (e₀ : Event) (d₀ : ℚ)
    (hb : st.bestMatch = some (e₀, d₀)) :
    mkPress t st
      = { eventId := some e₀.id, time := t, delta := d₀, matched := true } := by
  simp [mkPress, hb]

lemma mkPress_near (t : ℚ) (st : ScanState) (e₀ : Event) (d₀ : ℚ)
    (hb : st.bestMatch = none) (hn : st.nearestEvent = some (e₀, d₀)) :
    mkPress t st
      = { eventId := some e₀.id, time := t, delta := d₀, matched := false } := by
  simp [mkPress, hb, hn]

lemma mkPress_none (t : ℚ) (st : ScanState)
    (hb : st.bestMatch = none) (hn : st.nearestEvent = none) :
    mkPress t st
      = { eventId := none, time := t, delta := 0, matched := false } := by
  simp [mkPress, hb, hn]

lemma handleKeyPress_true (events : List Event) (ps : List Press) (tol t : ℚ) :
    handleKeyPress events ps tol true t
      = ps ++ [mkPress t (scanEvents tol t ps events)] := rfl

lemma handleKeyPress_false (events : List Event) (ps : List Press) (tol t : ℚ) :
    handleKeyPress events ps tol false t = ps := rfl

/-- C1: while playing, among targets not matched by an earlier press whose
delta lies within tolerance, the press matches the one minimizing `|delta|`
with ties broken by earliest target time (the scan order of the
ascending-sorted target list), and the recorded `Press` carries that
target's id, that delta, and `matched = true`. -/
theorem matcher_selects_min_abs_delta_within_tolerance
    (events : List Event) (ps : List Press) (tol t : ℚ)
    (hsort : events.Pairwise (fun a b => a.time ≤ b.time))
    (hex : ∃ e ∈ events, isMatchedIn ps e.id = false ∧ |deltaMs t e| ≤ tol) :
    ∃ e ∈ events, isMatchedIn ps e.id = false ∧ |deltaMs t e| ≤ tol ∧
      handleKeyPress events ps tol true t
        = ps ++ [{ eventId := some e.id, time := t, delta := deltaMs t e,
                   matched := true }] ∧
      ∀ e' ∈ events, isMatchedIn ps e'.id = false → |deltaMs t e'| ≤ tol →
        |deltaMs t e| ≤ |deltaMs t e'|
          ∧ (|deltaMs t e'| = |deltaMs t e| → e.time ≤ e'.time) := by
  obtain ⟨hcnone, hcsome⟩ := scanEvents_bestCore tol t ps events
  cases hbm : (scanEvents tol t ps events).bestMatch with
  | none =>
    obtain ⟨e, he, hc, ht⟩ := hex
    exact absurd ht (hcnone hbm e he hc)
  | some pr =>
    obtain ⟨h1, h2, h3, h4, h5⟩ := hcsome pr.1 pr.2 (by rw [hbm])
    have htie := scanEvents_bestTie tol t ps events hsort pr.1 pr.2 (by rw [hbm])
    refine ⟨pr.1, h4, h2, by rw [← h1]; exact h3, ?_, ?_⟩
    · rw [handleKeyPress_true, mkPress_best t _ pr.1 pr.2 hbm, h1]
    · intro e' he' hc' ht'
      constructor
      · have h6 := h5 e' he' hc' ht'
        rw [h1] at h6
        exact h6
      · intro heq
        exact htie e' he' hc' ht' (by rw [h1]; exact heq)

/-- C2: while playing, if no unmatched target lies within tolerance the
recorded `Press` has `matched = false` and reports the nearest unmatched
target (minimal `|delta|`, no tolerance filter); when no unmatched target
remains at all the `Press` carries `eventId = null` and `delta = 0`. -/
theorem matcher_miss_reports_nearest_unmatched
    (events : List Event) (ps : List Press) (tol t : ℚ)
    (hnotol : ∀ e ∈ events, isMatchedIn ps e.id = false → ¬ |deltaMs t e| ≤ tol) :
    ((∃ e ∈ events, isMatchedIn ps e.id = false) →
      ∃ e ∈ events, isMatchedIn ps e.id = false ∧
        handleKeyPress events ps tol true t
          = ps ++ [{ eventId := some e.id, time := t, delta := deltaMs t e,
                     matched := false }] ∧
        ∀ e' ∈ events, isMatchedIn ps e'.id = false →
          |deltaMs t e| ≤ |deltaMs t e'|) ∧
    ((∀ e ∈ events, isMatchedIn ps e.id = true) →
      handleKeyPress events ps tol true t
        = ps ++ [{ eventId := none, time := t, delta := 0, matched := false }]) := by
  have hbestnone : (scanEvents tol t ps events).bestMatch = none := by
    cases hbm : (scanEvents tol t ps events).bestMatch with
    | none => rfl
    | some pr =>
      obtain ⟨h1, h2, h3, h4, _⟩ :=
        (scanEvents_bestCore tol t ps events).2 pr.1 pr.2 (by rw [hbm])
      rw [h1] at h3
      exact absurd h3 (hnotol pr.1 h4 h2)
  obtain ⟨hnnone, hnsome⟩ := scanEvents_nearCore t tol ps events
  constructor
  · rintro ⟨e, he, hc⟩
    cases hnm : (scanEvents tol t ps events).nearestEvent with
    | none => exact (hnnone hnm e he hc).elim
    | some pr =>
      obtain ⟨h1, h2, h3, h4⟩ := hnsome pr.1 pr.2 (by rw [hnm])
      refine ⟨pr.1, h3, h2, ?_, ?_⟩
      · rw [handleKeyPress_true, mkPress_near t _ pr.1 pr.2 hbestnone hnm, h1]
      · intro e' he' hc'
        have h6 := h4 e' he' hc'
        rw [h1] at h6
        exact h6
  · intro hall
    cases hnm : (scanEvents tol t ps events).nearestEvent with
    | some pr =>
      obtain ⟨_, h2, h3, _⟩ := hnsome pr.1 pr.2 (by rw [hnm])
      rw [hall pr.1 h3] at h2
      exact Bool.noConfusion h2
    | none =>
      rw [handleKeyPress_true, mkPress_none t _ hbestnone hnm]

lemma countMatched_append (ps qs : List Press) (id : Nat) :
    countMatched (ps ++ qs) id = countMatched ps id + countMatched qs id := by
  simp [countMatched, List.countP_append]

lemma countMatched_pos_iff (ps : List Press) (id : Nat) :
    0 < countMatched ps id ↔ isMatchedIn ps id = true := by
  simp [countMatched, isMatchedIn, List.countP_pos_iff, List.any_eq_true]

/-- A press appended while some press already matched `id` cannot reference
`id`: every event with that id is skipped by both scans. -/
lemma mkPress_excludes_matched (events : List Event) (ps : List Press)
    (tol t : ℚ) (id : Nat) (h : isMatchedIn ps id = true) :
    (mkPress t (scanEvents tol t ps events)).eventId ≠ some id := by
  cases hbm : (scanEvents tol t ps events).bestMatch with
  | some pr =>
    obtain ⟨_, h2, _, _, _⟩ :=
      (scanEvents_bestCore tol t ps events).2 pr.1 pr.2 (by rw [hbm])
    rw [mkPress_best t _ pr.1 pr.2 hbm]
    intro hcontra
    have hid : pr.1.id = id := Option.some.inj hcontra
    rw [hid] at h2
    rw [h2] at h
    exact Bool.noConfusion h
  | none =>
    cases hnm : (scanEvents tol t ps events).nearestEvent with
    | some pr =>
      obtain ⟨_, h2, _, _⟩ :=
        (scanEvents_nearCore t tol ps events).2 pr.1 pr.2 (by rw [hnm])
      rw [mkPress_near t _ pr.1 pr.2 hbm hnm]
      intro hcontra
      have hid : pr.1.id = id := Option.some.inj hcontra
      rw [hid] at h2
      rw [h2] at h
      exact Bool.noConfusion h
    | none =>
      rw [mkPress_none t _ hbm hnm]
      exact Option.noConfusion

lemma countMatched_singleton_le (p : Press) (id : Nat) :
    countMatched [p] id ≤ 1 := by
  have := List.countP_le_length
    (p := fun q : Press => q.eventId == some id && q.matched) (l := [p])
  simpa [countMatched] using this

lemma countMatched_singleton_zero (p : Press) (id : Nat)
    (h : p.eventId ≠ some id) : countMatched [p] id = 0 := by
  simp [countMatched, List.countP_cons, List.countP_nil]
  intro hc
  exact absurd (by simpa using hc) h

lemma countMatched_handleKeyPress_le (events : List Event) (tol : ℚ)
    (ps : List Press) (t : ℚ) (id : Nat)
    (h : countMatched ps id ≤ 1) :
    countMatched (handleKeyPress events ps tol true t) id ≤ 1 := by
  rw [handleKeyPress_true, countMatched_append]
  by_cases hm : isMatchedIn ps id = true
  · have hz := countMatched_singleton_zero _ id
      (mkPress_excludes_matched events ps tol t id hm)
    omega
  · have hz : countMatched ps id = 0 := by
      by_contra hpos
      exact hm ((countMatched_pos_iff ps id).mp (Nat.pos_of_ne_zero hpos))
    have hs := countMatched_singleton_le (mkPress t (scanEvents tol t ps events)) id
    omega

lemma runPresses_aux (events : List Event) (tol : ℚ) (id : Nat) :
    ∀ (ts : List ℚ) (ps : List Press), countMatched ps id ≤ 1 →
    countMatched (ts.foldl (fun qs t => handleKeyPress events qs tol true t) ps) id ≤ 1 := by
  intro ts
  induction ts with
  | nil => intro ps h; exact h
  | cons t ts ih =>
    intro ps h
    exact ih _ (countMatched_handleKeyPress_le events tol ps t id h)

/-- C3: across a run of presses processed in order, a target id appears
with `matched = true` in at most one press of the log, and once a press
matched a target every later press excludes it from both scans: any press
it appends never references that id at all. -/
theorem target_matched_at_most_once_per_run
    (events : List Event) (tol : ℚ) (ts : List ℚ) (id : Nat) :
    countMatched (runPresses events tol ts) id ≤ 1 ∧
    (∀ (ps : List Press) (t : ℚ), isMatchedIn ps id = true →
      ∀ p ∈ handleKeyPress events ps tol true t, p ∈ ps ∨ p.eventId ≠ some id) := by
  constructor
  · exact runPresses_aux events tol id ts [] (by simp [countMatched])
  · intro ps t hm p hp
    rw [handleKeyPress_true] at hp
    rcases List.mem_append.mp hp with h' | h'
    · exact Or.inl h'
    · right
      rw [List.mem_singleton.mp h']
      exact mkPress_excludes_matched events ps tol t id hm

/-- C9: a missed press consumes nothing (the matched-id set is unchanged);
a later press within tolerance of target `X`, with `X` strictly nearest
among unmatched in-tolerance candidates, matches `X`; and a single press
appends exactly one record, so it can extend the matched-id set by at most
its one referenced target even when two targets are within `2 × tol` of
each other. -/
theorem miss_does_not_consume_and_single_match_per_press
    (events : List Event) (ps : List Press) (tol t : ℚ) :
    (∀ p, handleKeyPress events ps tol true t = ps ++ [p] → p.matched = false →
      ∀ id, isMatchedIn (ps ++ [p]) id = isMatchedIn ps id) ∧
    (∀ X ∈ events, isMatchedIn ps X.id = false → |deltaMs t X| ≤ tol →
      (∀ e ∈ events, isMatchedIn ps e.id = false → |deltaMs t e| ≤ tol →
        e = X ∨ |deltaMs t X| < |deltaMs t e|) →
      handleKeyPress events ps tol true t
        = ps ++ [{ eventId := some X.id, time := t, delta := deltaMs t X,
                   matched := true }]) ∧
    (∃ p, handleKeyPress events ps tol true t = ps ++ [p] ∧
      ∀ id, isMatchedIn (ps ++ [p]) id = true →
        isMatchedIn ps id = true ∨ (p.eventId = some id ∧ p.matched = true)) := by
  refine ⟨?_, ?_, ?_⟩
  · intro p _ hmf id
    simp [isMatchedIn, List.any_append, hmf]
  · intro X hX hcX htX hdom
    obtain ⟨hcnone, hcsome⟩ := scanEvents_bestCore tol t ps events
    cases hbm : (scanEvents tol t ps events).bestMatch with
    | none => exact absurd htX (hcnone hbm X hX hcX)
    | some pr =>
      obtain ⟨h1, h2, h3, h4, h5⟩ := hcsome pr.1 pr.2 (by rw [hbm])
      have hXpr : pr.1 = X := by
        rcases hdom pr.1 h4 h2 (by rw [← h1]; exact h3) with h | h
        · exact h
        · have h6 := h5 X hX hcX htX
          rw [h1] at h6
          exact absurd h (not_lt_of_le h6)
      rw [handleKeyPress_true, mkPress_best t _ pr.1 pr.2 hbm, h1, hXpr]
  · refine ⟨mkPress t (scanEvents tol t ps events), handleKeyPress_true events ps tol t, ?_⟩
    intro id h
    rw [isMatchedIn, List.any_append] at h
    simp only [Bool.or_eq_true] at h
    rcases h with h' | h'
    · exact Or.inl h'
    · right
      simp only [List.any_cons, List.any_nil, Bool.or_false, Bool.and_eq_true,
        beq_iff_eq] at h'
      exact h'

lemma fcGo_fst_mono (a : ℚ) :
    ∀ (l : List Event) (acc : List Nat × List Nat) (id : Nat),
    id ∈ acc.1 → id ∈ (fcGo a l acc).1 := by
  intro l
  induction l with
  | nil => intro acc id h; exact h
  | cons e es ih =>
    intro acc id h
    rw [fcGo]
    by_cases hc : e.time ≤ a ∧ e.id ∉ acc.1
    · rw [if_pos hc]
      exact ih _ id (List.mem_cons_of_mem _ h)
    · rw [if_neg hc]
      exact ih _ id h

lemma fcGo_snd_mono (a : ℚ) :
    ∀ (l : List Event) (acc : List Nat × List Nat) (id : Nat),
    id ∈ acc.2 → id ∈ (fcGo a l acc).2 := by
  intro l
  induction l with
  | nil => intro acc id h; exact h
  | cons e es ih =>
    intro acc id h
    rw [fcGo]
    by_cases hc : e.time ≤ a ∧ e.id ∉ acc.1
    · rw [if_pos hc]
      exact ih _ id (List.mem_append_left _ h)
    · rw [if_neg hc]
      exact ih _ id h

lemma fcGo_snd_mem (a : ℚ) :
    ∀ (l : List Event) (acc : List Nat × List Nat) (id : Nat),
    id ∈ (fcGo a l acc).2 →
    id ∈ acc.2 ∨ (id ∉ acc.1 ∧ ∃ e ∈ l, e.id = id ∧ e.time ≤ a) := by
  intro l
  induction l with
  | nil => intro acc id h; exact Or.inl h
  | cons e es ih =>
    intro acc id h
    rw [fcGo] at h
    by_cases hc : e.time ≤ a ∧ e.id ∉ acc.1
    · rw [if_pos hc] at h
      rcases ih _ id h with h' | ⟨hnin, e', he', hid, hta⟩
      · rcases List.mem_append.mp h' with h'' | h''
        · exact Or.inl h''
        · right
          have hide : id = e.id := List.mem_singleton.mp h''
          refine ⟨by rw [hide]; exact hc.2, e, List.mem_cons_self e es, hide.symm, hc.1⟩
      · right
        refine ⟨fun hin => hnin (List.mem_cons_of_mem _ hin),
          e', List.mem_cons_of_mem _ he', hid, hta⟩
    · rw [if_neg hc] at h
      rcases ih _ id h with h' | ⟨hnin, e', he', hid, hta⟩
      · exact Or.inl h'
      · exact Or.inr ⟨hnin, e', List.mem_cons_of_mem _ he', hid, hta⟩

lemma fcGo_snd_sub_fst (a : ℚ) :
    ∀ (l : List Event) (acc : List Nat × List Nat),
    (∀ id ∈ acc.2, id ∈ acc.1) →
    ∀ id ∈ (fcGo a l acc).2, id ∈ (fcGo a l acc).1 := by
  intro l
  induction l with
  | nil => intro acc h id hid; exact h id hid
  | cons e es ih =>
    intro acc h id hid
    rw [fcGo] at hid ⊢
    by_cases hc : e.time ≤ a ∧ e.id ∉ acc.1
    · rw [if_pos hc] at hid ⊢
      refine ih _ ?_ id hid
      intro j hj
      rcases List.mem_append.mp hj with h' | h'
      · exact List.mem_cons_of_mem _ (h j h')
      · rw [List.mem_singleton.mp h']
        exact List.mem_cons_self _ _
    · rw [if_neg hc] at hid ⊢
      exact ih _ h id hid

lemma fcGo_snd_nodup (a : ℚ) :
    ∀ (l : List Event) (acc : List Nat × List Nat),
    acc.2.Nodup → (∀ id ∈ acc.2, id ∈ acc.1) → (fcGo a l acc).2.Nodup := by
  intro l
  induction l with
  | nil => intro acc h _; exact h
  | cons e es ih =>
    intro acc h hsub
    rw [fcGo]
    by_cases hc : e.time ≤ a ∧ e.id ∉ acc.1
    · rw [if_pos hc]
      refine ih _ ?_ ?_
      · have hni : e.id ∉ acc.2 := fun hin => hc.2 (hsub _ hin)
        simp [List.nodup_append, h, hni]
      · intro j hj
        rcases List.mem_append.mp hj with h' | h'
        · exact List.mem_cons_of_mem _ (hsub j h')
        · rw [List.mem_singleton.mp h']
          exact List.mem_cons_self _ _
    · rw [if_neg hc]
      exact ih _ h hsub

lemma fcGo_complete (a : ℚ) :
    ∀ (l : List Event) (acc : List Nat × List Nat),
    ∀ e ∈ l, e.time ≤ a → e.id ∈ (fcGo a l acc).1 := by
  intro l
  induction l with
  | nil => intro acc e he; exact absurd he (List.not_mem_nil e)
  | cons e' es ih =>
    intro acc e he hta
    rw [fcGo]
    rcases List.mem_cons.mp he with h' | h'
    · subst h'
      by_cases hc : e.time ≤ a ∧ e.id ∉ acc.1
      · rw [if_pos hc]
        exact fcGo_fst_mono a es _ e.id (List.mem_cons_self _ _)
      · rw [if_neg hc]
        have hin : e.id ∈ acc.1 := by
          by_contra hnin
          exact hc ⟨hta, hnin⟩
        exact fcGo_fst_mono a es _ e.id hin
    · by_cases hc : e'.time ≤ a ∧ e'.id ∉ acc.1
      · rw [if_pos hc]
        exact ih _ e h' hta
      · rw [if_neg hc]
        exact ih _ e h' hta

lemma fcGo_fst_mem (a : ℚ) :
    ∀ (l : List Event) (acc : List Nat × List Nat) (id : Nat),
    id ∈ (fcGo a l acc).1 → id ∈ acc.1 ∨ id ∈ (fcGo a l acc).2 := by
  intro l
  induction l with
  | nil => intro acc id h; exact Or.inl h
  | cons e es ih =>
    intro acc id h
    rw [fcGo] at h ⊢
    by_cases hc : e.time ≤ a ∧ e.id ∉ acc.1
    · rw [if_pos hc] at h ⊢
      rcases ih _ id h with h' | h'
      · rcases List.mem_cons.mp h' with h'' | h''
        · right
          subst h''
          exact fcGo_snd_mono a es _ _ (List.mem_append_right _ (List.mem_singleton_self _))
        · exact Or.inl h''
      · exact Or.inr h'
    · rw [if_neg hc] at h ⊢
      exact ih _ id h

lemma tick_not_playing (events : List Event) (pr w : ℚ) (s : PlaybackState)
    (h : s.isPlaying = false) : tick events pr w s = ⟨s, [], false⟩ := by
  rw [tick, if_pos h]

lemma tick_playing_stop (events : List Event) (pr w : ℚ) (s : PlaybackState)
    (h : s.isPlaying = true)
    (hstop : lastEventTime events + 2 ≤ adjustedAt pr w s) :
    tick events pr w s =
      ⟨⟨false, adjustedAt pr w s, s.startTime,
         (fireCues (adjustedAt pr w s) events s.played).1⟩,
       (fireCues (adjustedAt pr w s) events s.played).2, false⟩ := by
  rw [tick, if_neg (by simp [h])]
  simp only []
  rw [if_pos hstop]

lemma tick_playing_go (events : List Event) (pr w : ℚ) (s : PlaybackState)
    (h : s.isPlaying = true)
    (hgo : ¬ lastEventTime events + 2 ≤ adjustedAt pr w s) :
    tick events pr w s =
      ⟨⟨true, adjustedAt pr w s, s.startTime,
         (fireCues (adjustedAt pr w s) events s.played).1⟩,
       (fireCues (adjustedAt pr w s) events s.played).2, true⟩ := by
  rw [tick, if_neg (by simp [h])]
  simp only []
  rw [if_neg hgo]
  cases s with
  | mk ip n st pl =>
    simp only at h
    rw [h]

lemma tick_played_mono (events : List Event) (pr w : ℚ) (s : PlaybackState)
    (id : Nat) (h : id ∈ s.played) :
    id ∈ (tick events pr w s).state.played := by
  cases hp : s.isPlaying
  · rw [tick_not_playing events pr w s hp]
    exact h
  · by_cases hstop : lastEventTime events + 2 ≤ adjustedAt pr w s
    · rw [tick_playing_stop events pr w s hp hstop]
      exact fcGo_fst_mono _ _ _ _ h
    · rw [tick_playing_go events pr w s hp hstop]
      exact fcGo_fst_mono _ _ _ _ h

lemma tick_cues_in_played (events : List Event) (pr w : ℚ) (s : PlaybackState)
    (id : Nat) (h : id ∈ (tick events pr w s).cues) :
    id ∈ (tick events pr w s).state.played := by
  cases hp : s.isPlaying
  · rw [tick_not_playing events pr w s hp] at h
    exact absurd h (List.not_mem_nil id)
  · by_cases hstop : lastEventTime events + 2 ≤ adjustedAt pr w s
    · rw [tick_playing_stop events pr w s hp hstop] at h ⊢
      exact fcGo_snd_sub_fst _ _ _ (by intro j hj; exact absurd hj (List.not_mem_nil j)) id h
    · rw [tick_playing_go events pr w s hp hstop] at h ⊢
      exact fcGo_snd_sub_fst _ _ _ (by intro j hj; exact absurd hj (List.not_mem_nil j)) id h

lemma tick_played_not_cue (events : List Event) (pr w : ℚ) (s : PlaybackState)
    (id : Nat) (h : id ∈ s.played) : id ∉ (tick events pr w s).cues := by
  intro hcue
  have hmem : id ∈ (fireCues (adjustedAt pr w s) events s.played).2 := by
    cases hp : s.isPlaying
    · rw [tick_not_playing events pr w s hp] at hcue
      exact absurd hcue (List.not_mem_nil id)
    · by_cases hstop : lastEventTime events + 2 ≤ adjustedAt pr w s
      · rw [tick_playing_stop events pr w s hp hstop] at hcue
        exact hcue
      · rw [tick_playing_go events pr w s hp hstop] at hcue
        exact hcue
  rcases fcGo_snd_mem _ _ _ _ hmem with h' | ⟨hnin, _⟩
  · exact absurd h' (List.not_mem_nil id)
  · exact hnin h

lemma tick_cues_nodup (events : List Event) (pr w : ℚ) (s : PlaybackState) :
    (tick events pr w s).cues.Nodup := by
  cases hp : s.isPlaying
  · rw [tick_not_playing events pr w s hp]
    exact List.nodup_nil
  · by_cases hstop : lastEventTime events + 2 ≤ adjustedAt pr w s
    · rw [tick_playing_stop events pr w s hp hstop]
      exact fcGo_snd_nodup _ _ _ List.nodup_nil
        (by intro j hj; exact absurd hj (List.not_mem_nil j))
    · rw [tick_playing_go events pr w s hp hstop]
      exact fcGo_snd_nodup _ _ _ List.nodup_nil
        (by intro j hj; exact absurd hj (List.not_mem_nil j))

lemma tick_cues_due (events : List Event) (pr w : ℚ) (s : PlaybackState)
    (id : Nat) (h : id ∈ (tick events pr w s).cues) :
    ∃ e ∈ events, e.id = id ∧ e.time ≤ adjustedAt pr w s := by
  have hmem : id ∈ (fireCues (adjustedAt pr w s) events s.played).2 := by
    cases hp : s.isPlaying
    · rw [tick_not_playing events pr w s hp] at h
      exact absurd h (List.not_mem_nil id)
    · by_cases hstop : lastEventTime events + 2 ≤ adjustedAt pr w s
      · rw [tick_playing_stop events pr w s hp hstop] at h
        exact h
      · rw [tick_playing_go events pr w s hp hstop] at h
        exact h
  rcases fcGo_snd_mem _ _ _ _ hmem with h' | ⟨_, he⟩
  · exact absurd h' (List.not_mem_nil id)
  · exact he

lemma tick_cues_complete (events : List Event) (pr w : ℚ) (s : PlaybackState)
    (e : Event) (hp : s.isPlaying = true) (he : e ∈ events)
    (hdue : e.time ≤ adjustedAt pr w s) (hnew : e.id ∉ s.played) :
    e.id ∈ (tick events pr w s).cues := by
  have hfst : e.id ∈ (fireCues (adjustedAt pr w s) events s.played).1 :=
    fcGo_complete _ _ _ e he hdue
  have hsnd : e.id ∈ (fireCues (adjustedAt pr w s) events s.played).2 := by
    rcases fcGo_fst_mem _ _ _ _ hfst with h' | h'
    · exact absurd h' hnew
    · exact h'
  by_cases hstop : lastEventTime events + 2 ≤ adjustedAt pr w s
  · rw [tick_playing_stop events pr w s hp hstop]
    exact hsnd
  · rw [tick_playing_go events pr w s hp hstop]
    exact hsnd

lemma runTicks_count (events : List Event) (pr : ℚ) (id : Nat) :
    ∀ (ws : List ℚ) (s : PlaybackState),
    ((runTicks events pr ws s).2.flatten.count id ≤ 1) ∧
    (id ∈ s.played → (runTicks events pr ws s).2.flatten.count id = 0) := by
  intro ws
  induction ws with
  | nil => intro s; simp [runTicks]
  | cons w ws ih =>
    intro s
    rw [runTicks]
    simp only [List.flatten_cons, List.count_append]
    constructor
    · by_cases hid : id ∈ (tick events pr w s).cues
      · have hone : (tick events pr w s).cues.count id ≤ 1 :=
          List.nodup_iff_count_le_one.mp (tick_cues_nodup events pr w s) id
        have hrest := (ih (tick events pr w s).state).2 (tick_cues_in_played events pr w s id hid)
        omega
      · have hzero : (tick events pr w s).cues.count id = 0 :=
          List.count_eq_zero.mpr hid
        have hrest := (ih (tick events pr w s).state).1
        omega
    · intro hpl
      have hzero : (tick events pr w s).cues.count id = 0 :=
        List.count_eq_zero.mpr (tick_played_not_cue events pr w s id hpl)
      have hrest := (ih (tick events pr w s).state).2 (tick_played_mono events pr w s id hpl)
      omega

/-- C4: across all ticks of a run each target's cue fires at most once; a
cue fires on a tick only for a target already due (`elapsed ≥
target.time`) at that tick; and on a single tick every due target not yet
in the fired set fires, however many became due simultaneously. -/
theorem cue_fires_at_most_once_and_only_when_due
    (events : List Event) (preRoll : ℚ) :
    (∀ (w : ℚ) (ws : List ℚ) (id : Nat),
      (runTicks events preRoll ws (start w initialState)).2.flatten.count id ≤ 1) ∧
    (∀ (s : PlaybackState) (w : ℚ) (id : Nat),
      id ∈ (tick events preRoll w s).cues →
      ∃ e ∈ events, e.id = id ∧ e.time ≤ adjustedAt preRoll w s) ∧
    (∀ (s : PlaybackState) (w : ℚ) (e : Event),
      s.isPlaying = true → e ∈ events → e.time ≤ adjustedAt preRoll w s →
      e.id ∉ s.played → e.id ∈ (tick events preRoll w s).cues) := by
  refine ⟨?_, ?_, ?_⟩
  · intro w ws id
    exact (runTicks_count events preRoll id ws (start w initialState)).1
  · intro s w id h
    exact tick_cues_due events preRoll w s id h
  · intro s w e hp he hdue hnew
    exact tick_cues_complete events preRoll w s e hp he hdue hnew

/-- C5: on a tick where the adjusted elapsed time has reached
`lastEventTime + 2` the run transitions to stopped and the animation-frame
cadence halts; afterwards further ticks are inert (no state change, no
cues, no rescheduling) and presses are no longer recorded. -/
theorem auto_stop_halts_cadence_and_processing
    (events : List Event) (preRoll w : ℚ) (s : PlaybackState)
    (hp : s.isPlaying = true)
    (hstop : lastEventTime events + 2 ≤ adjustedAt preRoll w s) :
    (tick events preRoll w s).state.isPlaying = false ∧
    (tick events preRoll w s).scheduled = false ∧
    (∀ w' : ℚ, tick events preRoll w' (tick events preRoll w s).state
      = ⟨(tick events preRoll w s).state, [], false⟩) ∧
    (∀ (ps : List Press) (tol t : ℚ),
      handleKeyPress events ps tol (tick events preRoll w s).state.isPlaying t
        = ps) := by
  have h := tick_playing_stop events preRoll w s hp hstop
  have hfalse : (tick events preRoll w s).state.isPlaying = false := by rw [h]
  refine ⟨hfalse, by rw [h], ?_, ?_⟩
  · intro w'
    exact tick_not_playing events preRoll w' _ hfalse
  · intro ps tol t
    rw [hfalse]
    exact handleKeyPress_false events ps tol t

/-- C6 counterexample: `start()` with an empty Target Set does not fail
with an error and does begin the tick cadence — the state is playing and
the first tick schedules the next frame. -/
theorem start_with_empty_targets_begins_cadence :
    (start 0 initialState).isPlaying = true ∧
    (tick [] 0 500 (start 0 initialState)).scheduled = true := by
  refine ⟨rfl, ?_⟩
  have hgo : ¬ lastEventTime [] + 2 ≤ adjustedAt 0 500 (start 0 initialState) := by
    norm_num [lastEventTime, adjustedAt, start, initialState]
  rw [tick_playing_go [] 0 500 (start 0 initialState) rfl hgo]

/-- C6 amended: `start()` never fails — for any prior state and any Target
Set (empty included) it records the origin wall time, clears the
fired-cue marker set, and sets the run playing, beginning the tick
cadence; with a non-empty Target Set this is exactly the claimed success
behavior. -/
theorem start_total_records_origin_and_clears_consumed
    (w : ℚ) (s : PlaybackState) :
    start w s = ⟨true, s.now, w, []⟩ := rfl

/-- C7 counterexample: during pre-roll (`isPlaying` with `now < 0`) a
press IS recorded, contrary to the claim that it is ignored. -/
theorem preroll_press_is_recorded :
    ((tick [⟨0, 1⟩] 1 200 (start 0 initialState)).state.now < 0) ∧
    ((tick [⟨0, 1⟩] 1 200 (start 0 initialState)).state.isPlaying = true) ∧
    handleKeyPress [⟨0, 1⟩] [] 100
        (tick [⟨0, 1⟩] 1 200 (start 0 initialState)).state.isPlaying
        (tick [⟨0, 1⟩] 1 200 (start 0 initialState)).state.now
      = [{ eventId := some 0, time := -4/5, delta := -1800, matched := false }] := by
  have hgo : ¬ lastEventTime [⟨0, 1⟩] + 2 ≤ adjustedAt 1 200 (start 0 initialState) := by
    norm_num [lastEventTime, adjustedAt, start, initialState]
  rw [tick_playing_go [⟨0, 1⟩] 1 200 (start 0 initialState) rfl hgo]
  refine ⟨by norm_num [adjustedAt, start, initialState], rfl, ?_⟩
  norm_num [adjustedAt, start, initialState, handleKeyPress, scanEvents, scanStep,
    updateBest, updateNearest, mkPress, deltaMs, isMatchedIn]

/-- C7 amended: a press is accepted and recorded exactly when `isPlaying`
is true — which includes the pre-roll period (elapsed < 0) — and is
ignored (no record created) whenever the run is not playing
(Idle/Stopped). -/
theorem press_accepted_iff_playing
    (events : List Event) (ps : List Press) (tol t : ℚ) :
    handleKeyPress events ps tol false t = ps ∧
    ∃ p, handleKeyPress events ps tol true t = ps ++ [p] :=
  ⟨rfl, mkPress t (scanEvents tol t ps events), rfl⟩

/-- C8: `reset()` is total, leaves playback stopped with `now = 0` and the
fired-cue marker set empty, and `reset()` followed by `start()` produces
exactly the state of a fresh `start()` — hence identical scheduling
behavior for identical targets and options. -/
theorem reset_then_start_equals_fresh_start (s : PlaybackState) (w : ℚ) :
    reset s = ⟨false, 0, s.startTime, []⟩ ∧
    start w (reset s) = start w initialState := ⟨rfl, rfl⟩

/-- C10: `start()` with an empty event list still begins the run (no
error is raised), no cue ever fires, and the tick loop keeps rescheduling
until the first tick where the adjusted elapsed time reaches 2 s (the
last-event time being taken as 0), where it auto-stops. -/
theorem empty_events_run_starts_and_auto_stops_at_two_seconds (preRoll : ℚ) :
    (∀ (w : ℚ) (s : PlaybackState), (start w s).isPlaying = true) ∧
    (∀ (w : ℚ) (s : PlaybackState), (tick [] preRoll w s).cues = []) ∧
    (∀ (w : ℚ) (s : PlaybackState), s.isPlaying = true →
      2 ≤ adjustedAt preRoll w s →
      (tick [] preRoll w s).state.isPlaying = false ∧
      (tick [] preRoll w s).scheduled = false) ∧
    (∀ (w : ℚ) (s : PlaybackState), s.isPlaying = true →
      adjustedAt preRoll w s < 2 →
      (tick [] preRoll w s).state.isPlaying = true ∧
      (tick [] preRoll w s).scheduled = true) := by
  refine ⟨fun w s => rfl, ?_, ?_, ?_⟩
  · intro w s
    cases hp : s.isPlaying
    · rw [tick_not_playing [] preRoll w s hp]
    · by_cases hstop : lastEventTime [] + 2 ≤ adjustedAt preRoll w s
      · rw [tick_playing_stop [] preRoll w s hp hstop]
        rfl
      · rw [tick_playing_go [] preRoll w s hp hstop]
        rfl
  · intro w s hp h2
    have hstop : lastEventTime [] + 2 ≤ adjustedAt preRoll w s := by
      simpa [lastEventTime] using h2
    rw [tick_playing_stop [] preRoll w s hp hstop]
    exact ⟨rfl, rfl⟩
  · intro w s hp h2
    have hgo : ¬ lastEventTime [] + 2 ≤ adjustedAt preRoll w s := by
      apply not_le.mpr
      simpa [lastEventTime] using h2
    rw [tick_playing_go [] preRoll w s hp hgo]
    exact ⟨rfl, rfl⟩

/-- Witness for C1 at the spec's example: tolerance 100 ms, a single
unmatched target at 1.00 s, press at 1.05 s (so the recorded press carries
id 0, delta 50 ms, matched). -/
theorem matcher_selects_min_abs_delta_witness :
    ∃ e ∈ [Event.mk 0 1], isMatchedIn [] e.id = false ∧ |deltaMs (21/20) e| ≤ 100 ∧
      handleKeyPress [Event.mk 0 1] [] 100 true (21/20)
        = [] ++ [{ eventId := some e.id, time := 21/20, delta := deltaMs (21/20) e,
                   matched := true }] ∧
      ∀ e' ∈ [Event.mk 0 1], isMatchedIn [] e'.id = false →
        |deltaMs (21/20) e'| ≤ 100 →
        |deltaMs (21/20) e| ≤ |deltaMs (21/20) e'|
          ∧ (|deltaMs (21/20) e'| = |deltaMs (21/20) e| → e.time ≤ e'.time) :=
  matcher_selects_min_abs_delta_within_tolerance [Event.mk 0 1] [] 100 (21/20)
    (by simp)
    ⟨Event.mk 0 1, List.mem_singleton_self _, rfl, by norm_num [deltaMs]⟩

/-- Witness for C2 at the spec's example: tolerance 20 ms, targets at 1.00
and 1.05, both unmatched, press at 1.50: the press misses and reports the
target at 1.05 with delta 450 ms. -/
theorem matcher_miss_reports_nearest_witness :
    (∃ e ∈ [Event.mk 0 1, Event.mk 1 (21/20)], isMatchedIn [] e.id = false ∧
      handleKeyPress [Event.mk 0 1, Event.mk 1 (21/20)] [] 20 true (3/2)
        = [] ++ [{ eventId := some e.id, time := 3/2, delta := deltaMs (3/2) e,
                   matched := false }] ∧
      ∀ e' ∈ [Event.mk 0 1, Event.mk 1 (21/20)], isMatchedIn [] e'.id = false →
        |deltaMs (3/2) e| ≤ |deltaMs (3/2) e'|) ∧
    handleKeyPress [Event.mk 0 1, Event.mk 1 (21/20)] [] 20 true (3/2)
      = [{ eventId := some 1, time := 3/2, delta := 450, matched := false }] := by
  have h := matcher_miss_reports_nearest_unmatched
    [Event.mk 0 1, Event.mk 1 (21/20)] [] 20 (3/2)
    (by intro e he hc; fin_cases he <;> norm_num [deltaMs])
  refine ⟨h.1 ⟨Event.mk 0 1, by simp, rfl⟩, ?_⟩
  norm_num [handleKeyPress, scanEvents, scanStep, updateBest, updateNearest,
    mkPress, deltaMs, isMatchedIn]

/-- Witness for C5: a single target at 1.00 s, no pre-roll, tick at wall
time 4000 ms, so the adjusted elapsed time 4 has passed 1 + 2. -/
theorem auto_stop_halts_witness :
    (tick [Event.mk 0 1] 0 4000 (start 0 initialState)).state.isPlaying = false ∧
    (tick [Event.mk 0 1] 0 4000 (start 0 initialState)).scheduled = false ∧
    (∀ w' : ℚ, tick [Event.mk 0 1] 0 w'
        (tick [Event.mk 0 1] 0 4000 (start 0 initialState)).state
      = ⟨(tick [Event.mk 0 1] 0 4000 (start 0 initialState)).state, [], false⟩) ∧
    (∀ (ps : List Press) (tol t : ℚ),
      handleKeyPress [Event.mk 0 1] ps tol
        (tick [Event.mk 0 1] 0 4000 (start 0 initialState)).state.isPlaying t
        = ps) :=
  auto_stop_halts_cadence_and_processing [Event.mk 0 1] 0 4000 (start 0 initialState)
    rfl (by norm_num [lastEventTime, adjustedAt, start, initialState])

end AttackTimer
